import Mathlib

/-
Verification development for the go-otlog Entry DAG core (src/entry.go).

The embedding translates the functions of src/entry.go into pure Lean
definitions.  Collaborators that are part of this repository but not under
src/ (the Record/Records/Snapshot payload types, the credential store, the
storage backend, the symmetric-crypto and signature primitives of the
`encrypt` package, and the JSON codec) are modelled from the spec; each such
definition carries a doc comment starting with `Modelled from the spec:`.

Go's mutable receiver methods become functions returning the updated
`Entry`; the mutable storage backend becomes an explicit association list
threaded through the operations; Go runtime panics (index out of range)
become the distinguished `Failure.goPanic` value; Go `error` returns become
the other `Failure` constructors.
-/

namespace otlog

/-- The operation transformation being applied, from src/entry.go
(`OpUpSert`, `OpDel`, `OpMerge`, `OpBase`). -/
inductive Operation where
  | ups
  | del
  | merg
  | base
deriving DecidableEq

/-- DAG link / Merkle leaf node, from src/entry.go (`Link`, single field
`Target`, the content reference string). -/
structure Link where
  Target : String
deriving DecidableEq

/-- Modelled from the spec: `Record` is declared outside src/ (only used by
src/entry.go).  Per the spec's data model it is "an identified value: a
stable identifier, an opaque value payload, a tombstone flag", and
src/entry.go line 382 constructs it positionally with three fields
`Record{records[index].ID, nil, true}`.  The uuid identifier is modelled as
a `Nat`, the `[]byte` payload as `Option (List Nat)` (nil vs a byte list). -/
structure Record where
  ID : Nat
  Data : Option (List Nat)
  Deleted : Bool
deriving DecidableEq

/-- Modelled from the spec: `EntryDiff` is declared outside src/.  Per the
spec it is "one Operation plus one affected Record"; src/entry.go accesses
fields `diff.Op` and `diff.Record`. -/
structure EntryDiff where
  Op : Operation
  Record : Record
deriving DecidableEq

/-- The DAG node of src/entry.go (`Entry`).  The unexported `isEncrypted`
flag is part of the in-memory state but not of the persisted form; the
`credStore`/`dataStore` capability fields are passed as explicit arguments
to the operations instead (spec design note: explicit context passing).
`time.Time` and `uuid.UUID` are modelled as `Nat`. -/
structure Entry where
  Time : Nat
  ID : Nat
  CrytpoAlg : String
  PublicCert : String
  Signature : String
  Snapshot : Option Link
  Data : String
  Operation : Operation
  Parent : List (Option Link)
  isEncrypted : Bool
deriving DecidableEq

/-- Modelled from the spec: the credential collaborator "exposes current
passphrase (empty ⇒ invalid/unusable), a signing private key, and a method
to obtain the signer's certificate as base64 DER".  The RSA private key is
modelled as an opaque `Nat` handle. -/
structure CredStore where
  pass : String
  privKey : Nat
  pubcert : String
deriving DecidableEq

/-- Modelled from the spec: `CredStore.getPass` accessor. -/
def CredStore.getPass (c : CredStore) : String := c.pass

/-- Modelled from the spec: `CredStore.getPrivKey` accessor. -/
def CredStore.getPrivKey (c : CredStore) : Nat := c.privKey

/-- Modelled from the spec: `CredStore.getPubcert` accessor (the reference
returns the base64-DER certificate; failure of this accessor is not
modelled). -/
def CredStore.getPubcert (c : CredStore) : String := c.pubcert

/-- Failure outcomes of the embedded operations.  `goPanic` models a Go
runtime panic (index out of range), which aborts the program rather than
being returned as an `error` value; all other constructors model returned
`error` values, with the decryption-path failures distinguished per step. -/
inductive Failure where
  | goPanic
  | missingPass
  | encFail
  | signFail
  | base64Payload
  | base64Cert
  | certParse
  | sigInvalid
  | decryptFail
  | notFound
  | noSnapshot
  | unmarshal
deriving DecidableEq

/-- Modelled from the spec: the crypto envelope / codec collaborators of
section 4.1 and the JSON diff codec, consumed as opaque functions.
`enc`/`dec` take plaintext (bytes modelled as `String`), the entry
timestamp and the passphrase; `sign`/`verify` use the private-key handle
resp. the public key extracted from a parsed certificate; `parseCert`
parses DER bytes into a public-key handle; `b64enc`/`b64dec` are the
base64 codec; `encDiff`/`decDiff` are `json.Marshal`/`json.Unmarshal`
specialised to `EntryDiff`. -/
structure CryptoPrims where
  enc : String → Nat → String → Option String
  dec : String → Nat → String → Option String
  sign : String → Nat → Option String
  verify : String → String → Nat → Bool
  parseCert : String → Option Nat
  b64enc : String → String
  b64dec : String → Option String
  encDiff : EntryDiff → String
  decDiff : String → Option EntryDiff

/-- Modelled from the spec: the fixed contract of section 4.1 for the
crypto primitives — encryption and signing are total, decryption inverts
encryption under the same timestamp and passphrase, base64 decoding
inverts encoding, and the JSON codec round-trips an `EntryDiff`. -/
structure ValidPrims (P : CryptoPrims) : Prop where
  encTotal : ∀ p t k, (P.enc p t k).isSome
  decEnc : ∀ p t k c, P.enc p t k = some c → P.dec c t k = some p
  signTotal : ∀ p k, (P.sign p k).isSome
  b64 : ∀ s, P.b64dec (P.b64enc s) = some s
  diffCodec : ∀ d, P.decDiff (P.encDiff d) = some d

/-- Modelled from the spec: usable credentials — a non-empty passphrase and
a certificate that decodes, parses, and verifies signatures produced with
the paired private key. -/
structure UsableCreds (P : CryptoPrims) (C : CredStore) : Prop where
  passSet : C.pass ≠ ""
  certOk : ∃ der pk, P.b64dec C.pubcert = some der ∧
    P.parseCert der = some pk ∧
    ∀ data sig, P.sign data C.privKey = some sig →
      P.verify sig data pk = true

/-! ### Association-list maps

Go `map[string]V` values are modelled as association lists with
insert-or-overwrite semantics (`mapInsert`); iteration order, which Go
leaves unspecified, is the deterministic list order. -/

/-- Insert-or-overwrite into an association list (Go map assignment). -/
def mapInsert {α : Type} (k : String) (v : α) :
    List (String × α) → List (String × α)
  | [] => [(k, v)]
  | (k', v') :: rest =>
    if k' = k then (k, v) :: rest else (k', v') :: mapInsert k v rest

/-- Go `refTree = map[string]map[string]bool`, the reverse-adjacency map of
the traversal; the inner set is a duplicate-free list. -/
abbrev refTree := List (String × List String)

/-- Go `dfsMap[pRef][ref] = true` — record `ref` as a direct descendant of
`pRef`. -/
def rtInsert (t : refTree) (pRef ref : String) : refTree :=
  match List.lookup pRef t with
  | none => mapInsert pRef [ref] t
  | some l => mapInsert pRef (if ref ∈ l then l else l ++ [ref]) t

/-- The shared depth map of the traversal (`map[string]int`). -/
abbrev DepthMap := List (String × Nat)

/-- Go `lcaMapping`: the two reverse-adjacency maps and the shared depth
map returned by the general ancestor search. -/
structure lcaMapping where
  ChildrenA : refTree
  ChildrenB : refTree
  Depths : DepthMap

/-- Modelled from the spec: the content-addressed entry store of the
storage collaborator (`StorageEngine`), a map from content reference to
the persisted entry. -/
abbrev Store := List (String × Entry)

/-- Modelled from the spec: the content-addressed snapshot store.  A
Snapshot is "an encrypted, persisted materialization of a Records
collection"; recovery via valid credentials yields the Records back, so
the store maps a content reference directly to the Records collection. -/
abbrev SnapStore := List (String × List Record)

/-- Length-prefixed string serialization fragment (injective framing for
the content-reference serialization). -/
def serS (s : String) : String := toString s.length ++ ":" ++ s

/-- Wire form of an `Operation` (src/entry.go constants). -/
def serOp : Operation → String
  | .ups => "ups"
  | .del => "del"
  | .merg => "merg"
  | .base => "base"

/-- Serialization of an optional parent/snapshot link. -/
def serLink : Option Link → String
  | none => "n"
  | some l => "s" ++ serS l.Target

/-- Modelled from the spec: the storage backend assigns "a backend-assigned
content-derived reference string" computed from the entry's serialized
persisted fields (the `isEncrypted` flag is not persisted and does not
contribute). -/
def refOf (e : Entry) : String :=
  "Qm" ++ toString e.Time ++ "." ++ toString e.ID ++ "." ++
    serS e.CrytpoAlg ++ serS e.PublicCert ++ serS e.Signature ++
    serLink e.Snapshot ++ serS e.Data ++ serOp e.Operation ++
    (e.Parent.map serLink).foldl (fun a b => a ++ b) ""

/-- The `encrypt.AlgoAES256SHA256` algorithm identifier recorded on new
entries (opaque constant; the concrete string lives outside src/). -/
def algoAES256SHA256 : String := "AES256SHA256"

/-- Constant `MAXDEPTH` — the limit of the depth of the search (src/entry.go). -/
def MAXDEPTH : Nat := 100000

/-! ### Entry lifecycle operations (src/entry.go) -/

/-- Embeds `NewEntry` (src/entry.go): fails when the credential store carries no
password; otherwise builds an unencrypted entry with default operation
`UpSert` and parent list `[]*Link{parent}` — note the single element is
the (possibly nil) argument.  The nondeterministic `time.Now()` and
`uuid.New()` are passed in as explicit `t`/`i`. -/
def NewEntry (parent : Option Link) (C : CredStore) (t i : Nat) :
    Except Failure Entry :=
  if C.getPass = "" then .error .missingPass
  else .ok
    { Time := t
      ID := i
      CrytpoAlg := algoAES256SHA256
      PublicCert := ""
      Signature := ""
      Snapshot := none
      Data := ""
      Operation := .ups
      Parent := [parent]
      isEncrypted := false }

/-- Embeds `validateSignature` (src/entry.go): base64-decode the embedded
certificate, parse it, extract the public key, and verify the detached
signature over the given plaintext.  (The Go type assertion to
`*rsa.PublicKey` is folded into `parseCert`.) -/
def validateSignature (P : CryptoPrims) (e : Entry) (data : String) :
    Except Failure Bool :=
  match P.b64dec e.PublicCert with
  | none => .error .base64Cert
  | some der =>
    match P.parseCert der with
    | none => .error .certParse
    | some pk =>
      if P.verify e.Signature data pk then .ok true else .error .sigInvalid

/-- Embeds `DecryptData` (src/entry.go): no-op if not encrypted; otherwise
base64-decode the payload, authenticated-decrypt it, re-validate the
signature over the plaintext, then (only on success) replace the payload
and clear the flag.  The second component is the post-state of the
receiver: every early error return leaves the entry exactly as it was. -/
def DecryptData (P : CryptoPrims) (C : CredStore) (e : Entry) :
    Except Failure Unit × Entry :=
  if e.isEncrypted then
    match P.b64dec e.Data with
    | none => (.error .base64Payload, e)
    | some rawBytes =>
      match P.dec rawBytes e.Time C.getPass with
      | none => (.error .decryptFail, e)
      | some dRaw =>
        match validateSignature P e dRaw with
        | .error f => (.error f, e)
        | .ok _ => (.ok (), { e with Data := dRaw, isEncrypted := false })
  else (.ok (), e)

/-- Embeds `encryptBytes` (src/entry.go): authenticated-encrypt the payload keyed
by timestamp and passphrase, sign the plaintext, then attach signature,
certificate and the base64 ciphertext and set the encrypted flag. -/
def encryptBytes (P : CryptoPrims) (C : CredStore) (data : String)
    (e : Entry) : Except Failure Entry :=
  match P.enc data e.Time C.getPass with
  | none => .error .encFail
  | some raw =>
    match P.sign data C.getPrivKey with
    | none => .error .signFail
    | some sig => .ok
      { e with
        Signature := sig
        PublicCert := C.getPubcert
        Data := P.b64enc raw
        isEncrypted := true }

/-- Embeds `EncryptString` (src/entry.go): encrypt a string payload. -/
def EncryptString (P : CryptoPrims) (C : CredStore) (data : String)
    (e : Entry) : Except Failure Entry :=
  encryptBytes P C data e

/-- Embeds `EncryptFromJSON` (src/entry.go) specialised to `EntryDiff`: marshal
then encrypt. -/
def EncryptFromJSON (P : CryptoPrims) (C : CredStore) (d : EntryDiff)
    (e : Entry) : Except Failure Entry :=
  encryptBytes P C (P.encDiff d) e

/-- Embeds `DataToString` (src/entry.go): decrypt if needed, then return the
payload together with the updated receiver. -/
def DataToString (P : CryptoPrims) (C : CredStore) (e : Entry) :
    Except Failure (String × Entry) :=
  if e.isEncrypted then
    match DecryptData P C e with
    | (.error f, _) => .error f
    | (.ok _, e') => .ok (e'.Data, e')
  else .ok (e.Data, e)

/-- Embeds `DataToStruct` (src/entry.go) specialised to `EntryDiff`: decrypt if
needed and unmarshal the payload. -/
def DataToStruct (P : CryptoPrims) (C : CredStore) (e : Entry) :
    Except Failure (EntryDiff × Entry) :=
  match DataToString P C e with
  | .error f => .error f
  | .ok (s, e') =>
    match P.decDiff s with
    | none => .error .unmarshal
    | some d => .ok (d, e')

/-- Embeds `Save` (src/entry.go): the guard
`len(e.Parent) == 0 && e.Parent[0] != nil && previous != ""` evaluates
`e.Parent[0]` right after `len(e.Parent) == 0` holds, so an empty parent
list hits the index-out-of-range runtime panic, and a non-empty parent
list short-circuits the conjunction to false — the parent rewrite (and
with it the `previous` argument) is unreachable.  If the payload is still
plaintext it is encrypted first, with the error of `e.Encrypt` discarded;
the entry is then persisted, keyed by its content reference. -/
def Save (P : CryptoPrims) (C : CredStore) (σ : Store) (previous : String)
    (e : Entry) : Except Failure (String × Entry × Store) :=
  if e.Parent.length = 0 then .error .goPanic
  else
    let e₁ := if e.isEncrypted then e
      else match encryptBytes P C e.Data e with
        | .ok x => x
        | .error _ => e
    .ok (refOf e₁, e₁, mapInsert (refOf e₁) e₁ σ)

/-- Embeds `NewEntryFromStorage` (src/entry.go): fetch the persisted entry (it
comes back in the encrypted state), then decrypt and validate it. -/
def NewEntryFromStorage (P : CryptoPrims) (C : CredStore) (σ : Store)
    (head : String) : Except Failure Entry :=
  match List.lookup head σ with
  | none => .error .notFound
  | some raw =>
    match DecryptData P C { raw with isEncrypted := true } with
    | (.error f, _) => .error f
    | (.ok _, e') => .ok e'

/-- Loop body of `Parents` (src/entry.go): resolve each non-nil parent
link and insert it into the reference→entry map. -/
def parentsAux (P : CryptoPrims) (C : CredStore) (σ : Store) :
    List (Option Link) → List (String × Entry) →
    Except Failure (List (String × Entry))
  | [], acc => .ok acc
  | none :: rest, acc => parentsAux P C σ rest acc
  | some l :: rest, acc =>
    match NewEntryFromStorage P C σ l.Target with
    | .error f => .error f
    | .ok ent => parentsAux P C σ rest (mapInsert l.Target ent acc)

/-- Embeds `Parents` (src/entry.go): a map from parent reference to fetched
parent entry; nil parents are skipped, so a root created with a nil
parent yields the empty map. -/
def Parents (P : CryptoPrims) (C : CredStore) (σ : Store) (e : Entry) :
    Except Failure (List (String × Entry)) :=
  parentsAux P C σ e.Parent []

/-- Embeds `applyDiff` (src/entry.go): locate the record by identifier (first
index, else "-1" modelled as `none`).  UpSert: `index > 0` writes in
place but then falls out of the `switch` into `return []Record{}` — the
returned collection is empty (the in-place write is dead, every caller
replaces its slice with the return value); `index <= 0` (a match at index
0, or no match) appends.  Delete: tombstone the record at `index` (a Go
index-out-of-range panic when there is no match), then return the
collection without its last element.  Other operations fall through to
the empty collection. -/
def findRecIdx (idv : Nat) : List Record → Option (Nat × Record)
  | [] => none
  | r :: rs =>
    if r.ID = idv then some (0, r)
    else (findRecIdx idv rs).map (fun p => (p.1 + 1, p.2))

/-- Embeds `applyDiff` (src/entry.go); see `findRecIdx` for the index search. -/
def applyDiff (diff : EntryDiff) (records : List Record) :
    Except Failure (List Record) :=
  match diff.Op with
  | .ups =>
    match findRecIdx diff.Record.ID records with
    | some (i, _) =>
      if 0 < i then .ok [] else .ok (records ++ [diff.Record])
    | none => .ok (records ++ [diff.Record])
  | .del =>
    match findRecIdx diff.Record.ID records with
    | some (i, r) =>
      .ok ((records.set i { ID := r.ID, Data := none, Deleted := true
        }).take (records.length - 1))
    | none => .error .goPanic
  | _ => .ok []

/-! ### Executable serialization codec

These structural encoders/decoders back the spec-modelled JSON codec and
the snapshot content references; everything kernel-reduces on closed
input. -/

/-- Unary-digits encoding of a byte list: each number is a run of the
digit character closed by a separator (structural and kernel-reducible,
unlike the square-root-based pairing function). -/
def encNats : List Nat → List Char
  | [] => []
  | n :: rest => List.replicate n 'i' ++ ',' :: encNats rest

/-- Decoder for `encNats`: count each run of the digit character, close
the current number at every separator. -/
def decNats : List Char → Nat → List Nat → List Nat
  | [], _, acc => acc.reverse
  | c :: rest, cur, acc =>
    if c = 'i' then decNats rest (cur + 1) acc
    else decNats rest 0 (cur :: acc)

theorem decNats_replicate (n : Nat) (rest : List Char) (cur : Nat)
    (acc : List Nat) :
    decNats (List.replicate n 'i' ++ rest) cur acc =
      decNats rest (cur + n) acc := by
  induction n generalizing cur with
  | zero => simp
  | succ n ih =>
    rw [List.replicate_succ, List.cons_append]
    have h1 : decNats ('i' :: (List.replicate n 'i' ++ rest)) cur acc =
        decNats (List.replicate n 'i' ++ rest) (cur + 1) acc := by
      simp [decNats]
    rw [h1, ih]
    congr 1
    omega

theorem decNats_encNats_aux :
    ∀ (l acc : List Nat), decNats (encNats l) 0 acc = acc.reverse ++ l := by
  intro l
  induction l with
  | nil => intro acc; simp [encNats, decNats]
  | cons n rest ih =>
    intro acc
    simp only [encNats, decNats_replicate, Nat.zero_add]
    have hc : ¬((',' : Char) = 'i') := by decide
    simp [decNats, hc, ih, List.reverse_cons]

theorem decNats_encNats (l : List Nat) : decNats (encNats l) 0 [] = l := by
  simpa using decNats_encNats_aux l []

/-- Numeric code of an `Operation`. -/
def opToNat : Operation → Nat
  | .ups => 0
  | .del => 1
  | .merg => 2
  | .base => 3

/-- Partial inverse of `opToNat`. -/
def opOfNat : Nat → Option Operation
  | 0 => some .ups
  | 1 => some .del
  | 2 => some .merg
  | 3 => some .base
  | _ => none

/-- Decoder for a tombstone flag. -/
def decBool : Nat → Option Bool
  | 0 => some false
  | 1 => some true
  | _ => none

/-- Flattening of an `EntryDiff` to a number list: operation code,
record identifier, tombstone flag, then a presence tag followed by the
byte payload. -/
def diffToList (d : EntryDiff) : List Nat :=
  opToNat d.Op :: d.Record.ID :: cond d.Record.Deleted 1 0 ::
    (match d.Record.Data with
     | none => [0]
     | some l => 1 :: l)

/-- Decoder for `diffToList`. -/
def diffOfList : List Nat → Option EntryDiff
  | [o, i, dl, 0] =>
    (match opOfNat o, decBool dl with
     | some op, some b =>
       some { Op := op, Record := { ID := i, Data := none, Deleted := b } }
     | _, _ => none)
  | o :: i :: dl :: 1 :: rest =>
    (match opOfNat o, decBool dl with
     | some op, some b =>
       some { Op := op,
              Record := { ID := i, Data := some rest, Deleted := b } }
     | _, _ => none)
  | _ => none

theorem diffOfList_diffToList (d : EntryDiff) :
    diffOfList (diffToList d) = some d := by
  obtain ⟨o, i, dat, del⟩ := d
  cases o <;> cases del <;> cases dat <;> rfl

/-! ### Ancestor finder (src/entry.go) -/

/-- Embeds `findCommon` (src/entry.go): iterate the shared depth map and keep a
reference as "common" if it is descendant-tracked in both traversals, or
is one traversal's own start node while tracked by the other. -/
def findCommon (depth : DepthMap) (a b : refTree) (eRef sRef : String) :
    List (String × Nat) :=
  depth.filter (fun kv =>
    ((List.lookup kv.1 a).isSome && (List.lookup kv.1 b).isSome) ||
    ((List.lookup kv.1 b).isSome && kv.1 == eRef) ||
    ((List.lookup kv.1 a).isSome && kv.1 == sRef))

/-- Embeds `dfs` (src/entry.go): bounded depth-first traversal.  Persist the
entry (ignoring the returned error, though a panic still propagates),
fetch its parents, increment the depth and stop once it exceeds
`MAXDEPTH`; otherwise recurse into each parent first and then record the
reverse-adjacency edge and the maximum depth of the parent reference.
Lean's total functions need a structural measure, so the recursion runs
on an explicit `fuel` counter consumed once per nesting level — exactly
the call-stack depth of the Go recursion; `none` means the fuel ran out,
which the termination theorem shows cannot happen once
`fuel > MAXDEPTH + 1 - curDepth`. -/
def dfs (P : CryptoPrims) (C : CredStore) :
    Nat → Entry → refTree → DepthMap → Nat → Store →
    Option (Except Failure (refTree × DepthMap × Store))
  | 0, _, _, _, _, _ => none
  | fuel + 1, e, dfsMap, depth, curDepth, σ =>
    match Save P C σ "" e with
    | .error f => some (.error f)
    | .ok (ref, e₁, σ₁) =>
      match Parents P C σ₁ e₁ with
      | .error f => some (.error f)
      | .ok parents =>
        if MAXDEPTH < curDepth + 1 then some (.ok (dfsMap, depth, σ₁))
        else
          parents.foldl (fun acc p =>
            match acc with
            | none => none
            | some (.error f) => some (.error f)
            | some (.ok (m, d, σ')) =>
              match dfs P C fuel p.2 m d (curDepth + 1) σ' with
              | none => none
              | some (.error f) => some (.error f)
              | some (.ok (m', d', σ'')) =>
                some (.ok (rtInsert m' p.1 ref,
                  match List.lookup p.1 d' with
                  | none => mapInsert p.1 (curDepth + 1) d'
                  | some v => if v < curDepth + 1 then
                      mapInsert p.1 (curDepth + 1) d' else d',
                  σ'')))
            (some (.ok (dfsMap, depth, σ₁)))

/-- Embeds `findCommonAncestor` (src/entry.go): early nil for a parentless
receiver; fast path when an immediate parent reference is shared; general
path persists both heads, runs the bounded traversal from each, collects
the common references and picks the first minimum-depth one (depth
`MAXDEPTH` sentinel, empty-candidate fallback is the zero-value
reference), fast-forwarding when the pick is the sibling itself.  The
traversal fuel is threaded explicitly (see `dfs`). -/
def findCommonAncestor (P : CryptoPrims) (C : CredStore) (fuel : Nat)
    (σ : Store) (e sibling : Entry) :
    Option (Except Failure ((Option String × Option lcaMapping) × Store)) :=
  if e.Parent.length = 0 then some (.ok ((none, none), σ))
  else
    match Parents P C σ e with
    | .error f => some (.error f)
    | .ok eParents =>
      match Parents P C σ sibling with
      | .error f => some (.error f)
      | .ok sParents =>
        match eParents.find? (fun p =>
            sParents.any (fun q => q.1 == p.1)) with
        | some p => some (.ok ((some p.1, none), σ))
        | none =>
          match Save P C σ "" e with
          | .error f => some (.error f)
          | .ok (eRef, e₁, σ₁) =>
            match Save P C σ₁ "" sibling with
            | .error f => some (.error f)
            | .ok (sRef, s₁, σ₂) =>
              let depth₀ := mapInsert sRef 0 (mapInsert eRef 0 [])
              match dfs P C fuel e₁ [] depth₀ 0 σ₂ with
              | none => none
              | some (.error f) => some (.error f)
              | some (.ok (childrenE, depth₁, σ₃)) =>
                match dfs P C fuel s₁ [] depth₁ 0 σ₃ with
                | none => none
                | some (.error f) => some (.error f)
                | some (.ok (childrenS, depth₂, σ₄)) =>
                  let commons := findCommon depth₂ childrenE childrenS
                    eRef sRef
                  let lca := (commons.foldl
                    (fun (acc : String × Nat) kv =>
                      if kv.2 < acc.2 then kv else acc)
                    ("", MAXDEPTH)).1
                  if lca = sRef then some (.ok ((some sRef, none), σ₄))
                  else some (.ok ((some lca,
                    some ⟨childrenE, childrenS, depth₂⟩), σ₄))

/-! ### Snapshot collaborators and the merge engine -/

/-- Flattening of a `Record` to a number list (for snapshot content
references). -/
def recToList (r : Record) : List Nat :=
  r.ID :: cond r.Deleted 1 0 ::
    (match r.Data with
     | none => [0]
     | some l => 1 :: l.length :: l)

/-- Modelled from the spec: `NewSnapshot` persists the Records collection
encrypted under the caller's credentials and returns its content link.
The content reference is derived from the records' serialized form. -/
def snapRefOf (rs : List Record) : String :=
  "sn:" ++
    String.mk (encNats (rs.foldr (fun r acc => recToList r ++ acc) []))

/-- Modelled from the spec: `NewSnapshot` — persist the Records, return
the snapshot link and the updated snapshot store. -/
def NewSnapshot (σs : SnapStore) (rs : List Record) : String × SnapStore :=
  (snapRefOf rs, mapInsert (snapRefOf rs) rs σs)

/-- Modelled from the spec: `RecoverSnapshot` + `GetRecords` — fetch the
persisted snapshot by reference and materialize its Records via the
caller's credentials. -/
def RecoverRecords (σs : SnapStore) (ref : String) :
    Option (List Record) :=
  List.lookup ref σs

/-- Loop of the multi-diff path of `difference` (src/entry.go): collect
the entries tracked on the sibling side but not on the receiver side. -/
def buildUncommon (P : CryptoPrims) (C : CredStore) (σ : Store)
    (chA : refTree) : refTree → List (String × Entry) →
    Except Failure (List (String × Entry))
  | [], acc => .ok acc
  | (ref, _) :: rest, acc =>
    if (List.lookup ref chA).isSome then buildUncommon P C σ chA rest acc
    else
      match NewEntryFromStorage P C σ ref with
      | .error f => .error f
      | .ok ent => buildUncommon P C σ chA rest (mapInsert ref ent acc)

/-- Playback ordering of `difference` (src/entry.go): append when the
entry is strictly later than the current last element, otherwise prepend
(the reference's insertion "sort"). -/
def playbackOrder (l : List (String × Entry)) : List Entry :=
  l.foldl (fun acc p =>
    match acc.getLast? with
    | none => acc ++ [p.2]
    | some last =>
      if last.Time < p.2.Time then acc ++ [p.2] else p.2 :: acc) []

/-- Replay loop of `difference` (src/entry.go): skip `Merge` entries,
decode each remaining entry's diff and apply it; the returned collection
is the value after the last applied diff (initially empty). -/
def replayDiffs (P : CryptoPrims) (C : CredStore) :
    List Entry → List Record → List Record →
    Except Failure (List Record)
  | [], _, merged => .ok merged
  | ent :: rest, records, merged =>
    if ent.Operation = .merg then replayDiffs P C rest records merged
    else
      match DataToStruct P C ent with
      | .error f => .error f
      | .ok (diff, _) =>
        match applyDiff diff records with
        | .error f => .error f
        | .ok recs => replayDiffs P C rest recs recs

/-- Embeds `difference` (src/entry.go): persist the sibling, then either replay
its single diff onto the materialized records (no mapping: fast-forward /
single-hop divergence) or collect the sibling-side-only entries, order
them, and replay each non-merge diff in turn. -/
def difference (P : CryptoPrims) (C : CredStore) (σ : Store)
    (mapping : Option lcaMapping) (sibling : Entry)
    (records : List Record) : Except Failure (List Record × Store) :=
  match Save P C σ "" sibling with
  | .error f => .error f
  | .ok (sRef, sib₁, σ₁) =>
    match mapping with
    | none =>
      match DataToStruct P C sib₁ with
      | .error f => .error f
      | .ok (sibDiff, _) =>
        match applyDiff sibDiff records with
        | .error f => .error f
        | .ok recs => .ok (recs, σ₁)
    | some mp =>
      match buildUncommon P C σ₁ mp.ChildrenA mp.ChildrenB
          [(sRef, sib₁)] with
      | .error f => .error f
      | .ok uncommon =>
        match replayDiffs P C (playbackOrder uncommon) records [] with
        | .error f => .error f
        | .ok merged => .ok (merged, σ₁)

/-- Embeds `Merge` (src/entry.go): persist both heads, find the common ancestor,
require the receiver's snapshot, materialize its records, build the new
merge entry, replay the sibling-side diffs, persist the reconciled
records as a new snapshot, and return the (unpersisted) merge entry with
operation `Merge`, the new snapshot link, and both heads as parents,
together with the merged records.  `mTime`/`mId` supply the merge entry's
fresh timestamp and identifier; `fuel` bounds the traversal (see `dfs`);
`none` means the traversal fuel ran out. -/
def Merge (P : CryptoPrims) (C : CredStore) (fuel : Nat) (σ : Store)
    (σs : SnapStore) (mTime mId : Nat) (e sibling : Entry) :
    Option (Except Failure (Entry × List Record × Store × SnapStore)) :=
  match Save P C σ "" e with
  | .error f => some (.error f)
  | .ok (eRef, e₁, σ₁) =>
    match Save P C σ₁ "" sibling with
    | .error f => some (.error f)
    | .ok (sRef, s₁, σ₂) =>
      match findCommonAncestor P C fuel σ₂ e₁ s₁ with
      | none => none
      | some (.error f) => some (.error f)
      | some (.ok ((_, mapping), σ₃)) =>
        match e₁.Snapshot with
        | none => some (.error .noSnapshot)
        | some snapLink =>
          match RecoverRecords σs snapLink.Target with
          | none => some (.error .notFound)
          | some records =>
            match NewEntry none C mTime mId with
            | .error f => some (.error f)
            | .ok mergeEntry =>
              match difference P C σ₃ mapping s₁ records with
              | .error f => some (.error f)
              | .ok (mergedRecords, σ₄) =>
                let snap := NewSnapshot σs mergedRecords
                some (.ok ({ mergeEntry with
                    Operation := .merg
                    Snapshot := some ⟨snap.1⟩
                    Parent := [some ⟨eRef⟩, some ⟨sRef⟩] },
                  mergedRecords, σ₄, snap.2))

/-! ### A concrete, contract-satisfying instance of the collaborators

Used to run the embedded operations on closed inputs.  The ciphers are
identities (the §4.1 contract requires invertibility, not secrecy) and the
JSON diff codec is an executable injective encoding with a proven
inverse. -/


/-- Concrete collaborator instance: identity ciphers, constant signature
accepted by the constant key, unary-string JSON codec. -/
def TrivPrims : CryptoPrims where
  enc := fun p _ _ => some p
  dec := fun c _ _ => some c
  sign := fun _ _ => some "SIG"
  verify := fun _ _ _ => true
  parseCert := fun _ => some 0
  b64enc := fun s => s
  b64dec := fun s => some s
  encDiff := fun d => String.mk (encNats (diffToList d))
  decDiff := fun s => diffOfList (decNats s.data 0 [])

theorem trivPrims_valid : ValidPrims TrivPrims where
  encTotal := fun _ _ _ => rfl
  decEnc := fun p t k c h => by
    simpa [TrivPrims] using h.symm
  signTotal := fun _ _ => rfl
  b64 := fun _ => rfl
  diffCodec := fun d => by
    show diffOfList (decNats (String.mk (encNats (diffToList d))).data 0 [])
      = some d
    rw [show (String.mk (encNats (diffToList d))).data =
      encNats (diffToList d) from rfl]
    rw [decNats_encNats, diffOfList_diffToList]

/-- A collaborator instance whose base64 decoder always fails (used to
exhibit a failing decryption). -/
def FailPrims : CryptoPrims :=
  { TrivPrims with b64dec := fun _ => none }

/-- Concrete credential store for the closed scenarios. -/
def C₀ : CredStore := { pass := "pw", privKey := 0, pubcert := "CERT" }

theorem usable_C₀ : UsableCreds TrivPrims C₀ :=
  ⟨by decide, "CERT", 0, rfl, rfl, fun _ _ _ => rfl⟩

/-! ### The concrete sibling-merge scenario

Mirrors `TestSimpleMerge` of src/entry_test.go: a `Base` root, two
sibling `UpSert` heads each carrying its own one-record snapshot and its
own `EntryDiff` payload. -/

/-- First sibling's record. -/
def r₁ : Record := { ID := 1, Data := some [], Deleted := false }

/-- Second sibling's record. -/
def r₂ : Record := { ID := 2, Data := some [], Deleted := false }

/-- First sibling's diff. -/
def d₁ : EntryDiff := { Op := .ups, Record := r₁ }

/-- Second sibling's diff. -/
def d₂ : EntryDiff := { Op := .ups, Record := r₂ }

/-- The root entry before saving (a `NewEntry` result with operation set
to `Base`, as in the test). -/
def root₀ : Entry :=
  { Time := 0
    ID := 0
    CrytpoAlg := algoAES256SHA256
    PublicCert := ""
    Signature := ""
    Snapshot := none
    Data := ""
    Operation := .base
    Parent := [none]
    isEncrypted := false }

/-- The root as persisted by `Save` (payload encrypted first). -/
def root₁ : Entry :=
  match encryptBytes TrivPrims C₀ root₀.Data root₀ with
  | .ok e => e
  | .error _ => root₀

/-- The root's content reference. -/
def rootRef : String := refOf root₁

/-- Entry store holding the saved root. -/
def σ₀ : Store := [(rootRef, root₁)]

/-- First sibling's snapshot reference. -/
def snapRef₁ : String := snapRefOf [r₁]

/-- Second sibling's snapshot reference. -/
def snapRef₂ : String := snapRefOf [r₂]

/-- Snapshot store holding both siblings' snapshots (two `NewSnapshot`
calls). -/
def σs₀ : SnapStore := [(snapRef₁, [r₁]), (snapRef₂, [r₂])]

/-- First sibling before payload encryption. -/
def a₀ : Entry :=
  { Time := 1
    ID := 1
    CrytpoAlg := algoAES256SHA256
    PublicCert := ""
    Signature := ""
    Snapshot := some ⟨snapRef₁⟩
    Data := ""
    Operation := .ups
    Parent := [some ⟨rootRef⟩]
    isEncrypted := false }

/-- First sibling with its `EntryDiff` payload encrypted
(`EncryptFromJSON`). -/
def a₁ : Entry :=
  match EncryptFromJSON TrivPrims C₀ d₁ a₀ with
  | .ok e => e
  | .error _ => a₀

/-- Second sibling before payload encryption. -/
def b₀ : Entry :=
  { Time := 2
    ID := 2
    CrytpoAlg := algoAES256SHA256
    PublicCert := ""
    Signature := ""
    Snapshot := some ⟨snapRef₂⟩
    Data := ""
    Operation := .ups
    Parent := [some ⟨rootRef⟩]
    isEncrypted := false }

/-- Second sibling with its `EntryDiff` payload encrypted. -/
def b₁ : Entry :=
  match EncryptFromJSON TrivPrims C₀ d₂ b₀ with
  | .ok e => e
  | .error _ => b₀

/-- Projection of a `Merge` outcome onto the merged records. -/
def mergeRecsOf
    (x : Option (Except Failure (Entry × List Record × Store × SnapStore))) :
    Option (List Record) :=
  match x with
  | some (.ok (_, recs, _, _)) => some recs
  | _ => none

/-! ### Shared helper lemmas -/

/-- A root with an empty parent list resolves to no parents. -/
theorem Parents_nil (P : CryptoPrims) (C : CredStore) (σ : Store)
    (e : Entry) (h : e.Parent = []) : Parents P C σ e = .ok [] := by
  unfold Parents
  rw [h]
  rfl

/-- Saving an already-encrypted entry with a non-empty parent list is a
pure store insertion: the entry is unchanged and keyed by its content
reference. -/
theorem Save_encrypted (P : CryptoPrims) (C : CredStore) (σ : Store)
    (prev : String) (e : Entry) (hp : e.Parent.length ≠ 0)
    (he : e.isEncrypted = true) :
    Save P C σ prev e = .ok (refOf e, e, mapInsert (refOf e) e σ) := by
  simp [Save, hp, he]

/-! ### Claim theorems -/

/-- Claim C2 — code-bug evidence.  The claim states the UpSert contract of
`applyDiff`: a record matching the diff's identifier is replaced in place
and everything else is unchanged, with append only on no match.  The code
diverges twice: a match at index 0 falls into the "not found" branch and
appends a duplicate (first conjunct), and a match at a positive index
falls out of the `switch` into `return []Record{}`, yielding the empty
collection (second conjunct). -/
theorem applyDiff_upsert_divergence :
    applyDiff
        { Op := .ups, Record := { ID := 1, Data := some [5], Deleted := false } }
        [{ ID := 1, Data := some [9], Deleted := false }] =
      .ok [{ ID := 1, Data := some [9], Deleted := false },
        { ID := 1, Data := some [5], Deleted := false }] ∧
    applyDiff
        { Op := .ups, Record := { ID := 2, Data := some [5], Deleted := false } }
        [{ ID := 1, Data := none, Deleted := false },
          { ID := 2, Data := some [9], Deleted := false }] =
      .ok [] :=
  ⟨rfl, rfl⟩

/-- Claim C3 — code-bug evidence.  The claim states that Delete tombstones
the located record and removes exactly it from the active collection.  On
`[{ID 1}, {ID 2}]` with a Delete for identifier 1 the code instead keeps
the tombstoned record 1 in the active collection and drops the unrelated
last record 2 (`records[:len(records)-1]` truncates the tail, not the
located index). -/
theorem applyDiff_delete_divergence :
    applyDiff
        { Op := .del, Record := { ID := 1, Data := none, Deleted := false } }
        [{ ID := 1, Data := some [7], Deleted := false },
          { ID := 2, Data := some [8], Deleted := false }] =
      .ok [{ ID := 1, Data := none, Deleted := true }] :=
  rfl

/-- Claim C4 — code-bug evidence.  The claim states that `Save` with a
non-empty previous-head reference rewrites the parent list to the single
link targeting it.  The guard `len(e.Parent) == 0 && e.Parent[0] != nil
&& previous != ""` is false for every non-empty parent list, so the saved
entry keeps its old parent instead of `[{newhead}]`. -/
theorem save_previous_head_divergence :
    (match Save TrivPrims C₀ [] "newhead" a₁ with
      | .ok (_, e, _) => e.Parent
      | _ => []) = [some ⟨rootRef⟩] :=
  rfl

/-- Claim C9: for every entry whose parent slice is empty, `Save`
evaluates `e.Parent[0]` while testing the rewrite guard and hits the Go
index-out-of-range runtime panic (modelled as the distinguished
`Failure.goPanic`, not an `error` return), for every previous-head
argument. -/
theorem save_empty_parent_panics (P : CryptoPrims) (C : CredStore)
    (σ : Store) (previous : String) (e : Entry) (h : e.Parent = []) :
    Save P C σ previous e = .error .goPanic := by
  simp [Save, h]

/-- Claim C9 witness: a concrete parentless entry panics on save. -/
theorem save_empty_parent_panics_witness :
    Save TrivPrims C₀ [] "prev" { root₀ with Parent := [] } =
      .error .goPanic :=
  save_empty_parent_panics TrivPrims C₀ [] "prev"
    { root₀ with Parent := [] } rfl

/-- Claim C10: a root created by `NewEntry` with a nil parent has a parent
list of length 1 whose single element is nil — not an empty list — so
`Parents` resolves it to the empty mapping while `findCommonAncestor`'s
length-0 root check is not triggered by it. -/
theorem newEntry_nil_parent_root (P : CryptoPrims) (C : CredStore)
    (σ : Store) (t i : Nat) (e : Entry) (hp : C.getPass ≠ "")
    (he : NewEntry none C t i = .ok e) :
    e.Parent = [none] ∧ e.Parent.length = 1 ∧ e.Parent.length ≠ 0 ∧
      Parents P C σ e = .ok [] := by
  unfold NewEntry at he
  rw [if_neg hp] at he
  injection he with he
  subst he
  exact ⟨rfl, rfl, by simp, rfl⟩

/-- The entry produced by `NewEntry none C₀ 0 10`. -/
def rootFresh : Entry :=
  { Time := 0
    ID := 10
    CrytpoAlg := algoAES256SHA256
    PublicCert := ""
    Signature := ""
    Snapshot := none
    Data := ""
    Operation := .ups
    Parent := [none]
    isEncrypted := false }

/-- Claim C10 witness: concrete nil-parent root. -/
theorem newEntry_nil_parent_root_witness :
    rootFresh.Parent = [none] ∧ rootFresh.Parent.length = 1 ∧
      rootFresh.Parent.length ≠ 0 ∧
      Parents TrivPrims C₀ σ₀ rootFresh = .ok [] :=
  newEntry_nil_parent_root TrivPrims C₀ σ₀ 0 10 rootFresh (by decide) rfl

/-- Claim C6: whenever `DecryptData` returns an error — base64 decode
failure, authenticated-decryption failure, certificate-parse failure, or
signature-verification failure — the entry (in particular its payload and
its encrypted flag) is exactly as it was before the call. -/
theorem decrypt_error_atomic (P : CryptoPrims) (C : CredStore) (e : Entry)
    (f : Failure) (h : (DecryptData P C e).1 = .error f) :
    (DecryptData P C e).2 = e := by
  unfold DecryptData at h ⊢
  cases hb : e.isEncrypted with
  | false => simp [hb]
  | true =>
    simp only [hb, if_true] at h ⊢
    cases h₁ : P.b64dec e.Data with
    | none => simp [h₁]
    | some raw =>
      simp only [h₁] at h ⊢
      cases h₂ : P.dec raw e.Time C.getPass with
      | none => simp [h₂]
      | some dRaw =>
        simp only [h₂] at h ⊢
        cases h₃ : validateSignature P e dRaw with
        | error f' => simp [h₃]
        | ok b =>
          simp only [h₃] at h
          exact absurd h (by simp)

/-- Claim C6 witness: a concrete failing decryption (base64 decoder that
rejects everything) leaves the concrete encrypted entry untouched. -/
theorem decrypt_error_atomic_witness :
    (DecryptData FailPrims C₀ b₁).1 = .error .base64Payload ∧
      (DecryptData FailPrims C₀ b₁).2 = b₁ :=
  ⟨rfl, decrypt_error_atomic FailPrims C₀ b₁ .base64Payload rfl⟩

/-- Claim C5: under the §4.1 contract and usable credentials,
`EncryptString` followed by `DecryptData` succeeds and restores the
payload, and any further `DecryptData` call on the now-decrypted entry is
a success that changes nothing (idempotence). -/
theorem encrypt_decrypt_roundtrip (P : CryptoPrims) (C : CredStore)
    (hV : ValidPrims P) (hU : UsableCreds P C) (e : Entry) (s : String) :
    ∃ e₁ e₂ : Entry, EncryptString P C s e = .ok e₁ ∧
      DecryptData P C e₁ = (.ok (), e₂) ∧
      e₂.Data = s ∧ e₂.isEncrypted = false ∧
      DecryptData P C e₂ = (.ok (), e₂) := by
  obtain ⟨raw, hraw⟩ :=
    Option.isSome_iff_exists.mp (hV.encTotal s e.Time C.getPass)
  obtain ⟨sig, hsig⟩ :=
    Option.isSome_iff_exists.mp (hV.signTotal s C.getPrivKey)
  obtain ⟨der, pk, hder, hpk, hver⟩ := hU.certOk
  refine ⟨{ e with
      Signature := sig
      PublicCert := C.getPubcert
      Data := P.b64enc raw
      isEncrypted := true },
    { e with
      Signature := sig
      PublicCert := C.getPubcert
      Data := s
      isEncrypted := false }, ?_, ?_, rfl, rfl, ?_⟩
  · unfold EncryptString encryptBytes
    rw [hraw, hsig]
  · simp only [DecryptData, validateSignature, CredStore.getPubcert,
      if_true, hV.b64 raw, hV.decEnc s e.Time C.getPass raw hraw, hder,
      hpk, hver s sig hsig]
  · simp only [DecryptData, Bool.false_eq_true, if_false]

/-- Claim C5 witness: concrete primitives, credentials, entry and
payload. -/
theorem encrypt_decrypt_roundtrip_witness :
    ∃ e₁ e₂ : Entry, EncryptString TrivPrims C₀ "hello" root₀ = .ok e₁ ∧
      DecryptData TrivPrims C₀ e₁ = (.ok (), e₂) ∧
      e₂.Data = "hello" ∧ e₂.isEncrypted = false ∧
      DecryptData TrivPrims C₀ e₂ = (.ok (), e₂) :=
  encrypt_decrypt_roundtrip TrivPrims C₀ trivPrims_valid usable_C₀
    root₀ "hello"

/-- Claim C7: when the immediate parent maps of the two entries share a
reference, `findCommonAncestor` takes the fast path — it returns one of
the shared parent references, no traversal mapping, and an unchanged
store. -/
theorem findCommonAncestor_fast_path (P : CryptoPrims) (C : CredStore)
    (fuel : Nat) (σ : Store) (e s : Entry)
    (pe ps : List (String × Entry))
    (hpe : Parents P C σ e = .ok pe)
    (hps : Parents P C σ s = .ok ps)
    (hshared : ∃ x ∈ pe, ps.any (fun q => q.1 == x.1) = true) :
    ∃ u ∈ pe, ps.any (fun q => q.1 == u.1) = true ∧
      findCommonAncestor P C fuel σ e s =
        some (.ok ((some u.1, none), σ)) := by
  have hfind : (pe.find? (fun p => ps.any (fun q => q.1 == p.1))).isSome :=
    List.find?_isSome.mpr hshared
  obtain ⟨u, hu⟩ := Option.isSome_iff_exists.mp hfind
  have hmem := List.mem_of_find?_eq_some hu
  have hpred := List.find?_some hu
  have hne : ¬(e.Parent.length = 0) := by
    intro h0
    have hplist : e.Parent = [] := List.length_eq_zero.mp h0
    rw [Parents_nil P C σ e hplist] at hpe
    injection hpe with hpe
    subst hpe
    exact absurd hmem (List.not_mem_nil u)
  refine ⟨u, hmem, hpred, ?_⟩
  unfold findCommonAncestor
  rw [if_neg hne]
  simp only [hpe, hps, hu]

/-- The root entry as it comes back from `NewEntryFromStorage`
(decrypted). -/
def rootFetched : Entry := { root₁ with isEncrypted := false }

/-- Claim C7 witness: two children of the same root — the fast path
returns the root's reference. -/
theorem findCommonAncestor_fast_path_witness :
    ∃ u ∈ [(rootRef, rootFetched)],
      ([(rootRef, rootFetched)].any (fun q => q.1 == u.1) = true) ∧
      findCommonAncestor TrivPrims C₀ 1 σ₀ a₁ b₁ =
        some (.ok ((some u.1, none), σ₀)) :=
  findCommonAncestor_fast_path TrivPrims C₀ 1 σ₀ a₁ b₁
    [(rootRef, rootFetched)] [(rootRef, rootFetched)] rfl rfl
    ⟨(rootRef, rootFetched), by simp, rfl⟩

/-- Claim C8: the bounded depth-first traversal terminates on every entry
graph reachable through the storage collaborator, cyclic ones included:
every recursive call increases the current depth, the traversal returns
without recursing once the depth exceeds `MAXDEPTH`, and therefore the
explicit recursion fuel is never exhausted once it exceeds
`MAXDEPTH + 1 - curDepth` — for arbitrary store contents. -/
theorem dfs_bounded_terminates :
    ∀ (fuel : Nat) (P : CryptoPrims) (C : CredStore) (e : Entry)
      (m : refTree) (d : DepthMap) (cur : Nat) (σ : Store),
      MAXDEPTH + 1 - cur < fuel →
      dfs P C fuel e m d cur σ ≠ none := by
  intro fuel
  induction fuel with
  | zero => intro P C e m d cur σ h; exact absurd h (Nat.not_lt_zero _)
  | succ f ih =>
    intro P C e m d cur σ h
    show dfs P C (f + 1) e m d cur σ ≠ none
    rw [dfs]
    split
    · simp
    next ref e₁ σ₁ _ =>
      split
      · simp
      next ps _ =>
        split
        · simp
        next hmax =>
          have hcur : MAXDEPTH + 1 - (cur + 1) < f := by omega
          have key : ∀ (l : List (String × Entry))
              (acc : Option (Except Failure (refTree × DepthMap × Store))),
              acc ≠ none →
              l.foldl (fun acc p =>
                match acc with
                | none => none
                | some (.error f') => some (.error f')
                | some (.ok (m', d', σ')) =>
                  match dfs P C f p.2 m' d' (cur + 1) σ' with
                  | none => none
                  | some (.error f') => some (.error f')
                  | some (.ok (m'', d'', σ'')) =>
                    some (.ok (rtInsert m'' p.1 ref,
                      match List.lookup p.1 d'' with
                      | none => mapInsert p.1 (cur + 1) d''
                      | some v => if v < cur + 1 then
                          mapInsert p.1 (cur + 1) d'' else d'',
                      σ''))) acc ≠ none := by
            intro l
            induction l with
            | nil => intro acc hacc; simpa
            | cons p rest ihl =>
              intro acc hacc
              rw [List.foldl_cons]
              apply ihl
              cases acc with
              | none => exact absurd rfl hacc
              | some x =>
                cases x with
                | error f' => simp
                | ok tr =>
                  obtain ⟨m', d', σ'⟩ := tr
                  have hdfs := ih P C p.2 m' d' (cur + 1) σ' hcur
                  cases hd : dfs P C f p.2 m' d' (cur + 1) σ' with
                  | none => exact absurd hd hdfs
                  | some r => cases r <;> simp [hd]
          exact key ps _ (by simp)

/-- A self-referential entry: its single parent link targets its own
storage key, making the reachable graph cyclic. -/
def cyc : Entry :=
  { Time := 5
    ID := 5
    CrytpoAlg := algoAES256SHA256
    PublicCert := ""
    Signature := ""
    Snapshot := none
    Data := ""
    Operation := .ups
    Parent := [some ⟨"c"⟩]
    isEncrypted := true }

/-- Claim C8 witness: the traversal applied to a concrete cyclic graph
with fuel just above the depth cap does not exhaust its fuel. -/
theorem dfs_bounded_terminates_witness :
    dfs TrivPrims C₀ 100002 cyc [] [] 0 [("c", cyc)] ≠ none :=
  dfs_bounded_terminates 100002 TrivPrims C₀ cyc [] [] 0 [("c", cyc)]
    (by decide)

/-- Characterization of the sibling-merge records: whenever both heads
are encrypted entries with parents, the ancestor search yields no
traversal mapping, the receiver's snapshot materializes, and the
sibling's payload decodes, the merged records are exactly the result of
applying the sibling's single diff to the receiver's snapshot records. -/
theorem merge_fastpath_records (P : CryptoPrims) (C : CredStore)
    (fuel : Nat) (σ : Store) (σs : SnapStore) (mTime mId : Nat)
    (e s : Entry) (lca : Option String) (σ' : Store) (snapL : Link)
    (S S' : List Record) (dSib : EntryDiff) (s' : Entry)
    (hep : e.Parent.length ≠ 0) (hsp : s.Parent.length ≠ 0)
    (hee : e.isEncrypted = true) (hse : s.isEncrypted = true)
    (hpass : ¬(C.getPass = ""))
    (hfca : findCommonAncestor P C fuel
        (mapInsert (refOf s) s (mapInsert (refOf e) e σ)) e s =
      some (.ok ((lca, none), σ')))
    (hsnap : e.Snapshot = some snapL)
    (hS : RecoverRecords σs snapL.Target = some S)
    (hdiff : DataToStruct P C s = .ok (dSib, s'))
    (happ : applyDiff dSib S = .ok S') :
    mergeRecsOf (Merge P C fuel σ σs mTime mId e s) = some S' := by
  simp only [Merge, Save_encrypted P C σ "" e hep hee,
    Save_encrypted P C (mapInsert (refOf e) e σ) "" s hsp hse, hfca,
    hsnap, hS, NewEntry, if_neg hpass, difference,
    Save_encrypted P C σ' "" s hsp hse, hdiff, happ, mergeRecsOf]

/-- Claim C1 — counterexample.  In the `TestSimpleMerge` scenario (two
sibling UpSert heads of a common Base root, distinct record identifiers,
each head carrying its own one-record snapshot over the same empty base),
the merged Records list of `a.Merge(b)` is `[r₁, r₂]` while `b.Merge(a)`
yields `[r₂, r₁]` — the call orders do not return equal lists, refuting
the claim as stated. -/
theorem merge_call_order_counterexample :
    mergeRecsOf (Merge TrivPrims C₀ 1 σ₀ σs₀ 9 99 a₁ b₁) =
      some [r₁, r₂] ∧
    mergeRecsOf (Merge TrivPrims C₀ 1 σ₀ σs₀ 9 99 b₁ a₁) =
      some [r₂, r₁] ∧
    mergeRecsOf (Merge TrivPrims C₀ 1 σ₀ σs₀ 9 99 a₁ b₁) ≠
      mergeRecsOf (Merge TrivPrims C₀ 1 σ₀ σs₀ 9 99 b₁ a₁) := by
  have h1 : mergeRecsOf (Merge TrivPrims C₀ 1 σ₀ σs₀ 9 99 a₁ b₁) =
      some [r₁, r₂] := rfl
  have h2 : mergeRecsOf (Merge TrivPrims C₀ 1 σ₀ σs₀ 9 99 b₁ a₁) =
      some [r₂, r₁] := rfl
  refine ⟨h1, h2, ?_⟩
  rw [h1, h2]
  decide

/-- Claim C1 — amended.  For sibling heads over the same base records
whose decoded diffs are UpSerts of identifiers absent from the other
side's snapshot records, the two call orders produce merged Records lists
that are permutations of each other (`base ++ [ra, rb]` versus
`base ++ [rb, ra]`), though not equal as lists. -/
theorem merge_call_order_perm_amended (P : CryptoPrims) (C : CredStore)
    (fuel : Nat) (σ : Store) (σs : SnapStore) (mTime mId : Nat)
    (a b : Entry) (la lb : Link) (lcaAB lcaBA : Option String)
    (σab σba : Store) (B : List Record) (ra rb : Record) (a' b' : Entry)
    (haP : a.Parent.length ≠ 0) (hbP : b.Parent.length ≠ 0)
    (hae : a.isEncrypted = true) (hbe : b.isEncrypted = true)
    (hpass : ¬(C.getPass = ""))
    (hfcaAB : findCommonAncestor P C fuel
        (mapInsert (refOf b) b (mapInsert (refOf a) a σ)) a b =
      some (.ok ((lcaAB, none), σab)))
    (hfcaBA : findCommonAncestor P C fuel
        (mapInsert (refOf a) a (mapInsert (refOf b) b σ)) b a =
      some (.ok ((lcaBA, none), σba)))
    (hsnapA : a.Snapshot = some la) (hsnapB : b.Snapshot = some lb)
    (hSa : RecoverRecords σs la.Target = some (B ++ [ra]))
    (hSb : RecoverRecords σs lb.Target = some (B ++ [rb]))
    (hda : DataToStruct P C a = .ok ({ Op := .ups, Record := ra }, a'))
    (hdb : DataToStruct P C b = .ok ({ Op := .ups, Record := rb }, b'))
    (hfa : findRecIdx ra.ID (B ++ [rb]) = none)
    (hfb : findRecIdx rb.ID (B ++ [ra]) = none) :
    mergeRecsOf (Merge P C fuel σ σs mTime mId a b) =
      some (B ++ [ra, rb]) ∧
    mergeRecsOf (Merge P C fuel σ σs mTime mId b a) =
      some (B ++ [rb, ra]) ∧
    (B ++ [ra, rb]).Perm (B ++ [rb, ra]) := by
  have happA : applyDiff { Op := .ups, Record := rb } (B ++ [ra]) =
      .ok (B ++ [ra, rb]) := by
    simp [applyDiff, hfb]
  have happB : applyDiff { Op := .ups, Record := ra } (B ++ [rb]) =
      .ok (B ++ [rb, ra]) := by
    simp [applyDiff, hfa]
  refine ⟨?_, ?_, ?_⟩
  · exact merge_fastpath_records P C fuel σ σs mTime mId a b lcaAB σab
      la (B ++ [ra]) (B ++ [ra, rb]) { Op := .ups, Record := rb } b'
      haP hbP hae hbe hpass hfcaAB hsnapA hSa hdb happA
  · exact merge_fastpath_records P C fuel σ σs mTime mId b a lcaBA σba
      lb (B ++ [rb]) (B ++ [rb, ra]) { Op := .ups, Record := ra } a'
      hbP haP hbe hae hpass hfcaBA hsnapB hSb hda happB
  · exact List.Perm.append_left B (List.Perm.swap rb ra [])

/-- The first sibling after its payload is decoded (`DataToStruct`
post-state). -/
def a₁dec : Entry :=
  { a₁ with Data := TrivPrims.encDiff d₁, isEncrypted := false }

/-- The second sibling after its payload is decoded. -/
def b₁dec : Entry :=
  { b₁ with Data := TrivPrims.encDiff d₂, isEncrypted := false }

/-- Claim C1 — witness for the amended claim, at the concrete sibling
scenario (empty base, records `r₁`/`r₂` with distinct fresh
identifiers). -/
theorem merge_call_order_perm_amended_witness :
    mergeRecsOf (Merge TrivPrims C₀ 1 σ₀ σs₀ 9 99 a₁ b₁) =
      some ([] ++ [r₁, r₂]) ∧
    mergeRecsOf (Merge TrivPrims C₀ 1 σ₀ σs₀ 9 99 b₁ a₁) =
      some ([] ++ [r₂, r₁]) ∧
    (([] : List Record) ++ [r₁, r₂]).Perm ([] ++ [r₂, r₁]) :=
  merge_call_order_perm_amended TrivPrims C₀ 1 σ₀ σs₀ 9 99 a₁ b₁
    ⟨snapRef₁⟩ ⟨snapRef₂⟩ (some rootRef) (some rootRef)
    (mapInsert (refOf b₁) b₁ (mapInsert (refOf a₁) a₁ σ₀))
    (mapInsert (refOf a₁) a₁ (mapInsert (refOf b₁) b₁ σ₀))
    [] r₁ r₂ a₁dec b₁dec
    (by decide) (by decide) rfl rfl (by decide)
    rfl rfl rfl rfl rfl rfl rfl rfl rfl rfl

end otlog
